import Mathlib

/-!
Verification development for the tardis configuration subsystem
(src/tardis/src/config/config_processor.rs and collaborators).

The Rust code is shallowly embedded: raw configuration trees become an
inductive value type over association lists, the multi-source merge
performed by the config crate becomes a recursive merge function, the
decryption pass becomes a scanner over character lists, and the
fallible stages return Except / explicit outcome types.
-/

/-- Raw configuration value: a scalar (string, integer, boolean) or a
nested table, as parsed from one configuration source.  Tables are
association lists from key to value. -/
inductive CVal where
  | s : String → CVal
  | i : Int → CVal
  | b : Bool → CVal
  | table : List (String × CVal) → CVal

/-- A raw configuration tree: a top-level table. -/
abbrev Table := List (String × CVal)

/-- First-occurrence lookup in an association list. -/
def lookupKey : Table → String → Option CVal
  | [], _ => none
  | (k0, v0) :: t, k => if k0 = k then some v0 else lookupKey t k

/-- A value is a leaf when it is not a nested table. -/
def CVal.isLeaf : CVal → Bool
  | .table _ => false
  | _ => true

mutual
/-- Modelled from the spec: the merge of two values performed by the
config crate when a later source redefines a key (the merge
implementation lives in the external config crate, not under src/).
Nested tables are merged key by key; any other collision is resolved
by the later value winning wholesale. -/
def mergeVal : CVal → CVal → CVal
  | .table ta, .table tb => .table (mergeTab ta tb)
  | _, bv => bv
termination_by a bv => (sizeOf bv, 0, 0)

/-- Modelled from the spec: merge the entries of a later table into an
earlier one, key by key (union of keys), later entries overriding at
the leaf level. -/
def mergeTab : Table → Table → Table
  | ta, [] => ta
  | ta, (k, v) :: rest => mergeTab (insertMerged ta k v) rest
termination_by ta tb => (sizeOf tb, 2, 0)

/-- Insert one later entry into a table, merging with the existing
value at that key when there is one. -/
def insertMerged : Table → String → CVal → Table
  | [], k, v => [(k, v)]
  | (k0, v0) :: t, k, v =>
      if k0 = k then (k0, mergeVal v0 v) :: t else (k0, v0) :: insertMerged t k v
termination_by t k v => (sizeOf v, 1, sizeOf t)
end

/-- Resolve an ordered list of source trees (lowest precedence first)
into one merged tree, later trees overriding earlier ones. -/
def resolveTrees (ts : List Table) : Table :=
  ts.foldl mergeTab []

/-- A table is well formed when its keys are pairwise distinct, as in
the maps produced by parsing a configuration source. -/
def nodupKeys (t : Table) : Prop :=
  (t.map Prod.fst).Nodup

instance (t : Table) : Decidable (nodupKeys t) := by
  unfold nodupKeys; infer_instance

theorem mergeVal_leaf (w v : CVal) (h : v.isLeaf = true) : mergeVal w v = v := by
  cases w <;> cases v <;> simp_all [mergeVal, CVal.isLeaf]

theorem lookupKey_insertMerged_self (t : Table) (k : String) (v : CVal) :
    lookupKey (insertMerged t k v) k =
      some (match lookupKey t k with
            | some v0 => mergeVal v0 v
            | none => v) := by
  induction t with
  | nil => simp [insertMerged, lookupKey]
  | cons hd tl ih =>
      obtain ⟨k0, v0⟩ := hd
      by_cases hk : k0 = k
      · subst hk; simp [insertMerged, lookupKey]
      · simp [insertMerged, lookupKey, hk, ih]

theorem lookupKey_insertMerged_other (t : Table) (k k' : String) (v : CVal)
    (h : k' ≠ k) : lookupKey (insertMerged t k v) k' = lookupKey t k' := by
  induction t with
  | nil => simp [insertMerged, lookupKey, Ne.symm h]
  | cons hd tl ih =>
      obtain ⟨k0, v0⟩ := hd
      by_cases hk : k0 = k
      · subst hk
        simp [insertMerged, lookupKey, Ne.symm h]
      · simp [insertMerged, lookupKey, hk, ih]

theorem lookupKey_mergeTab_absent (tb : Table) (ta : Table) (k : String)
    (h : lookupKey tb k = none) : lookupKey (mergeTab ta tb) k = lookupKey ta k := by
  induction tb generalizing ta with
  | nil => simp [mergeTab]
  | cons hd tl ih =>
      obtain ⟨k0, v0⟩ := hd
      simp only [lookupKey] at h
      by_cases hk : k0 = k
      · simp [hk] at h
      · simp only [hk, if_false] at h
        simp only [mergeTab]
        rw [ih _ h, lookupKey_insertMerged_other _ _ _ _ (fun hh => hk hh.symm)]

theorem lookupKey_eq_none_of_not_mem (t : Table) (k : String)
    (h : k ∉ t.map Prod.fst) : lookupKey t k = none := by
  induction t with
  | nil => simp [lookupKey]
  | cons hd tl ih =>
      obtain ⟨k0, v0⟩ := hd
      simp only [List.map_cons, List.mem_cons] at h
      push_neg at h
      simp [lookupKey, Ne.symm h.1, ih h.2]

theorem lookupKey_mergeTab_leaf (tb : Table) (ta : Table) (k : String) (v : CVal)
    (hnd : nodupKeys tb) (h : lookupKey tb k = some v) (hleaf : v.isLeaf = true) :
    lookupKey (mergeTab ta tb) k = some v := by
  induction tb generalizing ta with
  | nil => simp [lookupKey] at h
  | cons hd tl ih =>
      obtain ⟨k0, v0⟩ := hd
      unfold nodupKeys at hnd
      simp only [List.map_cons, List.nodup_cons] at hnd
      by_cases hk : k0 = k
      · subst hk
        rw [lookupKey, if_pos rfl] at h
        obtain rfl : v0 = v := by injection h
        simp only [mergeTab]
        have htl : lookupKey tl k0 = none := lookupKey_eq_none_of_not_mem _ _ hnd.1
        rw [lookupKey_mergeTab_absent _ _ _ htl, lookupKey_insertMerged_self]
        cases h0 : lookupKey ta k0 with
        | none => simp
        | some w => simp [mergeVal_leaf _ _ hleaf]
      · rw [lookupKey, if_neg hk] at h
        simp only [mergeTab]
        exact ih _ hnd.2 h

/-- Error kinds of the shared tardis error taxonomy.  Mirrors the
variants of TardisError in src/src/basic/error.rs (InternalError,
NotImplemented, IOError, BadRequest, Unauthorized, NotFound,
FormatError, Timeout, Conflict); custom stands for errors built with
an explicit caller-supplied code (TardisError::wrap). -/
inductive TardisErrKind where
  | internalError
  | notImplemented
  | ioError
  | badRequest
  | unauthorized
  | notFound
  | formatError
  | timeout
  | conflict
  | custom
deriving DecidableEq

/-- A tardis error value: its kind together with the message and the
secondary code string passed at the construction site. -/
structure TardisErr where
  kind : TardisErrKind
  message : String
  code : String
deriving DecidableEq

/-- Errors of the config crate, as matched by the From impl in
config_processor.rs lines 261 to 273. -/
inductive ConfigErr where
  | frozen
  | notFound (what : String)
  | pathParse (msg : String)
  | fileParse (msg : String)
  | typeMismatch (msg : String)
  | message (msg : String)
  | foreign (msg : String)
deriving DecidableEq

/-- Embedding of the From impl for ConfigError in config_processor.rs
lines 261 to 273: Frozen becomes io_error, NotFound becomes not_found,
the parse and type variants become format_error, and Message and
Foreign are wrapped with the default minus-one code class. -/
def configErrToTardis : ConfigErr → TardisErr
  | .frozen => ⟨.ioError, "[Tardis.Config] Frozen", "503-tardis-config-frozen"⟩
  | .notFound w => ⟨.notFound, "[Tardis.Config] NotFound " ++ w, "404-tardis-config-not-exist"⟩
  | .pathParse m => ⟨.formatError, "[Tardis.Config] " ++ m, "406-tardis-config-parse-error"⟩
  | .fileParse m => ⟨.formatError, "[Tardis.Config] " ++ m, "406-tardis-config-parse-error"⟩
  | .typeMismatch m => ⟨.formatError, "[Tardis.Config] " ++ m, "406-tardis-config-parse-error"⟩
  | .message m => ⟨.custom, "[Tardis.Config] " ++ m, "-1-tardis-config-custom-error"⟩
  | .foreign m => ⟨.custom, "[Tardis.Config] " ++ m, "-1-tardis-config-error"⟩

/-- Outcome of one remote HTTP fetch as seen by HttpSource::collect:
either the transport failed before a status was produced, or the
server answered with a status code and a body. -/
inductive HttpResp where
  | transportFailure (msg : String)
  | status (code : Nat) (body : String)

/-- Embedding of HttpSource::collect (config_processor.rs lines 224 to
242): transport failures become Foreign errors, status 404 yields an
empty map (the not-found signal), status 200 parses the body with the
configured format (parse failures become Foreign), and any other
status yields a Message error.  Body acquisition is folded into the
response value. -/
def httpCollect (parse : String → Except String Table) (url : String) (resp : HttpResp) :
    Except ConfigErr Table :=
  match resp with
  | .transportFailure m => .error (.foreign m)
  | .status c body =>
    if c = 404 then .ok []
    else if c = 200 then
      match parse body with
      | .ok t => .ok t
      | .error e => .error (.foreign e)
    else .error (.message ("[Tardis.Config] Fetch remote file: " ++ url ++ " error " ++ toString c))

/-- Remote configuration center settings, from the ConfCenterConfig
fields used by config_processor.rs (kind, url, format). -/
structure ConfCenterConfig where
  kind : String
  url : String
  format : Option String

/-- One configuration source of the builder, in the order they are
added by TardisConfig::do_init: a local file (with its required flag),
a remote document, or the environment layer restricted to variables
named with the TARDIS namespace. -/
inductive ConfigSource where
  | localFile (path : String) (required : Bool)
  | remoteDoc (url : String)
  | envTardis
deriving DecidableEq

/-- Modelled from the spec: the list of remote document names fetched
for an application, one default document and one per non-empty
profile (the concrete url construction lives in config_nacos.rs,
which is not under src/). -/
def fetchConfUrls (appId profile : String) : List String :=
  [appId ++ "-default"] ++ (if profile = "" then [] else [appId ++ "-" ++ profile])

/-- Embedding of the local-file part of TardisConfig::do_init (lines
77 to 88): no local source at all when no relative path is given,
otherwise the required conf-default file followed by the required
conf-profile file when the profile is non-empty. -/
def localSources (relativePath : Option String) (profile : String) : List ConfigSource :=
  match relativePath with
  | none => []
  | some p =>
      [ConfigSource.localFile (p ++ "/conf-default") true] ++
        (if profile = "" then [] else [ConfigSource.localFile (p ++ "/conf-" ++ profile) true])

/-- Embedding of the source-list construction of TardisConfig::do_init
(lines 74 to 140): local files first, then the remote documents when a
configuration center is active, then the environment layer, added
last. -/
def doInitSources (relativePath : Option String) (profile : String)
    (confCenter : Option (ConfCenterConfig × String)) : List ConfigSource :=
  localSources relativePath profile ++
    (match confCenter with
     | none => []
     | some (_, appId) => (fetchConfUrls appId profile).map ConfigSource.remoteDoc) ++
    [ConfigSource.envTardis]

/-- The ambient world a resolution pass reads from: the local file
system, the remote fetch results (already collected), and the tree
derived from environment variables in the TARDIS namespace. -/
structure FetchEnv where
  localFiles : String → Option Table
  remote : String → Except ConfigErr Table
  envVars : Table

/-- Collect one source into a raw tree: a required local file that is
absent is a NotFound error, an absent optional file contributes the
empty tree, remote documents use the remote fetch result, and the
environment source contributes the environment tree. -/
def collectSource (env : FetchEnv) : ConfigSource → Except ConfigErr Table
  | .localFile p req =>
    match env.localFiles p with
    | some t => .ok t
    | none => if req then .error (.notFound p) else .ok []
  | .remoteDoc u => env.remote u
  | .envTardis => .ok env.envVars

/-- Fold the collected sources in order into one merged tree, stopping
at the first failure, later sources overriding earlier ones. -/
def buildMergedAux (env : FetchEnv) (acc : Table) : List ConfigSource → Except ConfigErr Table
  | [] => .ok acc
  | s :: rest =>
    match collectSource env s with
    | .ok t => buildMergedAux env (mergeTab acc t) rest
    | .error e => .error e

/-- Build and merge the whole source list of one resolution pass. -/
def buildMerged (env : FetchEnv) (srcs : List ConfigSource) : Except ConfigErr Table :=
  buildMergedAux env [] srcs

/-- Membership in the character class of the token pattern in
config_processor.rs line 250: upper case letters, lower case letters,
digits, plus and slash. -/
def isB64 (c : Char) : Bool :=
  ('A' ≤ c && c ≤ 'Z') || ('a' ≤ c && c ≤ 'z') || ('0' ≤ c && c ≤ '9') || c == '+' || c == '/'

/-- Greedy run of payload characters: the longest all-payload front of
the list, together with the remainder. -/
def takeB64 : List Char → List Char × List Char
  | [] => ([], [])
  | c :: t =>
    if isB64 c then
      let r := takeB64 t
      (c :: r.1, r.2)
    else ([], c :: t)

theorem takeB64_snd_length (l : List Char) : (takeB64 l).2.length ≤ l.length := by
  induction l with
  | nil => simp [takeB64]
  | cons c t ih =>
      by_cases hc : isB64 c
      · simp only [takeB64, hc, if_true]
        exact Nat.le_succ_of_le ih
      · simp [takeB64, hc]

/-- Match the token pattern at the head of the list: four literal
characters E N C and an opening bracket, then a greedy payload run,
then a closing bracket.  On success, returns the payload and the
remainder after the closing bracket. -/
def matchTok : List Char → Option (List Char × List Char)
  | a :: bc :: c :: d :: rest =>
    if a = 'E' ∧ bc = 'N' ∧ c = 'C' ∧ d = '(' then
      match (takeB64 rest).2 with
      | e :: r2 => if e = ')' then some ((takeB64 rest).1, r2) else none
      | [] => none
    else none
  | _ => none

theorem matchTok_length (cs : List Char) (pr : List Char × List Char)
    (h : matchTok cs = some pr) : pr.2.length < cs.length := by
  match cs with
  | [] => simp [matchTok] at h
  | [a] => simp [matchTok] at h
  | [a, bc] => simp [matchTok] at h
  | [a, bc, c] => simp [matchTok] at h
  | a :: bc :: c :: d :: rest =>
      simp only [matchTok] at h
      split at h
      · rename_i hcond
        split at h
        · rename_i e r2 heq
          split at h
          · obtain rfl : pr = ((takeB64 rest).1, r2) := by
              injection h with h2; exact h2.symm
            have h1 : r2.length < (takeB64 rest).2.length := by
              rw [heq]; simp
            have h2 : (takeB64 rest).2.length ≤ rest.length := takeB64_snd_length rest
            simp only [List.length_cons]
            omega
          · exact absurd h (by simp)
        · exact absurd h (by simp)
      · exact absurd h (by simp)

/-- Embedding of the replace_all scan of the decryption regex
(config_processor.rs lines 250 to 257): walk the text left to right;
at each position, if the token pattern matches, decode and decrypt the
payload and emit the plaintext, resuming after the token; otherwise
emit the current character.  A failing decryption is the failure of
the whole scan (the expect call in the closure). -/
def scanDecrypt (dec : String → Option String) : List Char → Option (List Char)
  | [] => some []
  | c :: rest =>
    match h : matchTok (c :: rest) with
    | some pr =>
      match dec (String.mk pr.1) with
      | some plain => (scanDecrypt dec pr.2).map (fun out => plain.data ++ out)
      | none => none
    | none => (scanDecrypt dec rest).map (fun out => c :: out)
termination_by cs => cs.length
decreasing_by
  · exact matchTok_length _ _ h
  · simp

/-- Whether the token pattern matches at some position of the text. -/
def containsTok : List Char → Bool
  | [] => false
  | c :: rest => (matchTok (c :: rest)).isSome || containsTok rest

theorem scan_nil (dec : String → Option String) : scanDecrypt dec [] = some [] := by
  simp [scanDecrypt]

theorem scan_cons_nomatch (dec : String → Option String) (c : Char) (rest : List Char)
    (h : matchTok (c :: rest) = none) :
    scanDecrypt dec (c :: rest) = (scanDecrypt dec rest).map (fun out => c :: out) := by
  conv_lhs => rw [scanDecrypt]
  split
  · rename_i pr heq
    rw [h] at heq
    simp at heq
  · rfl

theorem scan_cons_match (dec : String → Option String) (c : Char) (rest : List Char)
    (p r2 : List Char) (q : String) (h : matchTok (c :: rest) = some (p, r2))
    (hdec : dec (String.mk p) = some q) :
    scanDecrypt dec (c :: rest) = (scanDecrypt dec r2).map (fun out => q.data ++ out) := by
  conv_lhs => rw [scanDecrypt]
  split
  · rename_i pr heq
    rw [h] at heq
    obtain rfl : pr = (p, r2) := by injection heq with h2; exact h2.symm
    simp [hdec]
  · rename_i heq
    rw [h] at heq
    simp at heq

theorem scan_cons_match_fail (dec : String → Option String) (c : Char) (rest : List Char)
    (p r2 : List Char) (h : matchTok (c :: rest) = some (p, r2))
    (hdec : dec (String.mk p) = none) :
    scanDecrypt dec (c :: rest) = none := by
  conv_lhs => rw [scanDecrypt]
  split
  · rename_i pr heq
    rw [h] at heq
    obtain rfl : pr = (p, r2) := by injection heq with h2; exact h2.symm
    simp [hdec]
  · rename_i heq
    rw [h] at heq
    simp at heq

theorem scan_no_token (dec : String → Option String) (cs : List Char)
    (h : containsTok cs = false) : scanDecrypt dec cs = some cs := by
  induction cs with
  | nil => exact scan_nil dec
  | cons c rest ih =>
      simp only [containsTok, Bool.or_eq_false_iff] at h
      have h1 : matchTok (c :: rest) = none := by
        cases hm : matchTok (c :: rest) with
        | none => rfl
        | some pr => rw [hm] at h; simp at h
      rw [scan_cons_nomatch dec c rest h1, ih h.2]
      rfl

theorem takeB64_append_all (u l : List Char) (h : ∀ c ∈ u, isB64 c = true) :
    takeB64 (u ++ l) = (u ++ (takeB64 l).1, (takeB64 l).2) := by
  induction u with
  | nil => simp
  | cons c t ih =>
      have hc : isB64 c = true := h c (by simp)
      simp only [List.cons_append, takeB64, hc, if_true, List.append_eq]
      rw [ih (fun x hx => h x (by simp [hx]))]

theorem takeB64_append_run (u l : List Char) (h : (takeB64 u).2 = []) :
    takeB64 (u ++ l) = ((takeB64 u).1 ++ (takeB64 l).1, (takeB64 l).2) := by
  induction u with
  | nil => simp [takeB64]
  | cons c t ih =>
      by_cases hc : isB64 c
      · simp only [takeB64, hc, if_true] at h
        simp only [List.cons_append, takeB64, hc, if_true, List.append_eq]
        rw [ih h]
      · simp [takeB64, hc] at h

theorem takeB64_append_stop (u l : List Char) (w : Char) (r2 : List Char)
    (h : (takeB64 u).2 = w :: r2) :
    takeB64 (u ++ l) = ((takeB64 u).1, w :: (r2 ++ l)) := by
  induction u with
  | nil => simp [takeB64] at h
  | cons c t ih =>
      by_cases hc : isB64 c
      · simp only [takeB64, hc, if_true] at h
        simp only [List.cons_append, takeB64, hc, if_true, List.append_eq]
        rw [ih h]
      · simp only [takeB64, hc, if_false] at h
        obtain ⟨rfl, rfl⟩ : c = w ∧ t = r2 := by injection h with h1 h2; exact ⟨h1, h2⟩
        simp [takeB64, hc]

theorem takeB64_tok (l : List Char) :
    takeB64 ('E' :: 'N' :: 'C' :: '(' :: l) = (['E', 'N', 'C'], '(' :: l) := by
  have h1 : isB64 'E' = true := by decide
  have h2 : isB64 'N' = true := by decide
  have h3 : isB64 'C' = true := by decide
  have h4 : isB64 '(' = false := by decide
  simp [takeB64, h1, h2, h3, h4]

theorem matchTok_at_token (p rest : List Char) (hp : ∀ c ∈ p, isB64 c = true) :
    matchTok ('E' :: 'N' :: 'C' :: '(' :: (p ++ ')' :: rest)) = some (p, rest) := by
  have hr : isB64 ')' = false := by decide
  have ht : takeB64 (p ++ ')' :: rest) = (p, ')' :: rest) := by
    rw [takeB64_append_all _ _ hp]
    simp [takeB64, hr]
  simp [matchTok, ht]

theorem containsTok_head_none (c : Char) (rest : List Char)
    (h : containsTok (c :: rest) = false) : matchTok (c :: rest) = none := by
  simp only [containsTok, Bool.or_eq_false_iff] at h
  cases hm : matchTok (c :: rest) with
  | none => rfl
  | some pr => rw [hm] at h; simp at h

theorem containsTok_tail (c : Char) (rest : List Char)
    (h : containsTok (c :: rest) = false) : containsTok rest = false := by
  simp only [containsTok, Bool.or_eq_false_iff] at h
  exact h.2

theorem matchTok_append_tok_none (cs l : List Char) (hne : cs ≠ [])
    (h : containsTok cs = false) :
    matchTok (cs ++ 'E' :: 'N' :: 'C' :: '(' :: l) = none := by
  have hEN : ('E' : Char) ≠ 'N' := by decide
  have hEC : ('E' : Char) ≠ 'C' := by decide
  have hEP : ('E' : Char) ≠ '(' := by decide
  rcases cs with _ | ⟨a, _ | ⟨b2, _ | ⟨c2, _ | ⟨d2, u⟩⟩⟩⟩
  · exact absurd rfl hne
  · simp [matchTok, hEN]
  · simp [matchTok, hEC]
  · simp [matchTok, hEP]
  · by_cases hcond : a = 'E' ∧ b2 = 'N' ∧ c2 = 'C' ∧ d2 = '('
    · obtain ⟨rfl, rfl, rfl, rfl⟩ := hcond
      have h0 : matchTok ('E' :: 'N' :: 'C' :: '(' :: u) = none := containsTok_head_none _ _ h
      cases ht : (takeB64 u).2 with
      | nil =>
          have hPP : ('(' : Char) ≠ ')' := by decide
          have hrun := takeB64_append_run u ('E' :: 'N' :: 'C' :: '(' :: l) ht
          rw [takeB64_tok] at hrun
          simp only [List.cons_append]
          simp [matchTok, hrun, hPP]
      | cons w r2 =>
          have hw : w ≠ ')' := by
            intro hw
            subst hw
            simp [matchTok, ht] at h0
          have hstop := takeB64_append_stop u ('E' :: 'N' :: 'C' :: '(' :: l) w r2 ht
          simp only [List.cons_append]
          simp [matchTok, hstop, hw]
    · simp only [List.cons_append]
      simp [matchTok, hcond]

theorem scan_splice (dec : String → Option String) (cs p rest : List Char) (q : String)
    (hcs : containsTok cs = false) (hp : ∀ c ∈ p, isB64 c = true)
    (hdec : dec (String.mk p) = some q) :
    scanDecrypt dec (cs ++ 'E' :: 'N' :: 'C' :: '(' :: (p ++ ')' :: rest)) =
      (scanDecrypt dec rest).map (fun out => cs ++ (q.data ++ out)) := by
  induction cs with
  | nil =>
      rw [List.nil_append]
      rw [scan_cons_match dec _ _ p rest q (matchTok_at_token p rest hp) hdec]
      cases scanDecrypt dec rest <;> simp
  | cons c t ih =>
      have hm := matchTok_append_tok_none (c :: t) (p ++ ')' :: rest) (by simp) hcs
      rw [List.cons_append] at hm ⊢
      rw [scan_cons_nomatch dec c _ hm]
      rw [ih (containsTok_tail _ _ hcs)]
      cases scanDecrypt dec rest <;> simp

theorem scan_splice_fail (dec : String → Option String) (cs p rest : List Char)
    (hcs : containsTok cs = false) (hp : ∀ c ∈ p, isB64 c = true)
    (hdec : dec (String.mk p) = none) :
    scanDecrypt dec (cs ++ 'E' :: 'N' :: 'C' :: '(' :: (p ++ ')' :: rest)) = none := by
  induction cs with
  | nil =>
      rw [List.nil_append]
      exact scan_cons_match_fail dec _ _ p rest (matchTok_at_token p rest hp) hdec
  | cons c t ih =>
      have hm := matchTok_append_tok_none (c :: t) (p ++ ')' :: rest) (by simp) hcs
      rw [List.cons_append] at hm ⊢
      rw [scan_cons_nomatch dec c _ hm]
      rw [ih (containsTok_tail _ _ hcs)]
      rfl

/-- Outcome of the decryption pass: a decrypted blob, a typed tardis
error, or a panic raised by the expect call inside the replacement
closure. -/
inductive DecOutcome where
  | ok (text : String)
  | err (e : TardisErr)
  | panicked (msg : String)
deriving DecidableEq

/-- Embedding of the decryption function (config_processor.rs lines
246 to 259).  The AES-ECB cipher of the crypto module is not under
src/ and is passed as the parameter dec (payload and salt to optional
plaintext).  A salt whose length is not 16 yields the format_error of
line 248 before the text is scanned; a payload the cipher rejects is
the expect panic of line 255.  Lengths are character counts, faithful
for the ASCII salts and payloads the code works with. -/
def decryption (dec : String → String → Option String) (text salt : String) : DecOutcome :=
  if salt.length ≠ 16 then
    .err ⟨.formatError, "[Tardis.Config] [salt] Length must be 16", ""⟩
  else
    match scanDecrypt (fun d => dec d salt) text.data with
    | some cs => .ok (String.mk cs)
    | none => .panicked "[Tardis.Config] Decryption error"

/-- Modelled from the spec: advanced framework settings, holding the
hex salt for configuration decryption and the backtrace switch (the
full config_dto module is not under src/). -/
structure AdvConfig where
  backtrace : Bool
  salt : String

/-- Modelled from the spec: the application block of the framework
configuration, holding the application id. -/
structure AppConfig where
  id : String

/-- Modelled from the spec: the strongly typed framework configuration
with the fields the resolution pass reads, and its all-defaults value
(empty application id, no configuration center, empty salt). -/
structure FrameworkConfig where
  app : AppConfig
  adv : AdvConfig
  confCenter : Option ConfCenterConfig

/-- The all-defaults framework configuration produced when no fw
branch is present. -/
def FrameworkConfig.defaults : FrameworkConfig :=
  ⟨⟨""⟩, ⟨false, ""⟩, none⟩

/-- Embedding of the fw extraction of TardisConfig::do_init (lines 165
to 174): a missing fw branch yields the all-defaults structure, a
present branch is deserialized (the serde deserializer is the
parameter parseFw), and any error other than NotFound propagates. -/
def frameworkFromMerged (parseFw : CVal → Except ConfigErr FrameworkConfig)
    (merged : Table) : Except TardisErr FrameworkConfig :=
  match lookupKey merged "fw" with
  | none => .ok FrameworkConfig.defaults
  | some v =>
    match parseFw v with
    | .ok fw => .ok fw
    | .error e => .error (configErrToTardis e)

/-- Insert with replacement, the HashMap insert of the workspace map. -/
def setEntry : Table → String → CVal → Table
  | [], k, v => [(k, v)]
  | (k0, v0) :: t, k, v =>
      if k0 = k then (k, v) :: t else (k0, v0) :: setEntry t k v

/-- Extend with replacement, the HashMap extend used for the csm
entries: every added entry overwrites an existing entry at the same
key. -/
def wsExtend (m adds : Table) : Table :=
  adds.foldl (fun acc kv => setEntry acc kv.1 kv.2) m

/-- Embedding of the workspace extraction of TardisConfig::do_init
(lines 142 to 164): start from the empty map, insert the cs value
under the empty key when the cs branch exists, then extend with the
csm entries; a csm branch that is not a table is a type error. -/
def workspaceFromMerged (merged : Table) : Except TardisErr Table :=
  let ws : Table := []
  let ws :=
    match lookupKey merged "cs" with
    | some c => setEntry ws "" c
    | none => ws
  match lookupKey merged "csm" with
  | none => .ok ws
  | some (.table m) => .ok (wsExtend ws m)
  | some _ =>
      .error (configErrToTardis (.typeMismatch "invalid type for key csm"))

/-- Embedding of the configuration-center gate of TardisConfig::init
(lines 47 to 60): no second pass without a configuration center; with
one, an empty application id fails with the format_error of line 51
before the remote pass, otherwise the remote-augmented second pass
runs.  The gate consults nothing but the first-pass framework
configuration, so no network call precedes the failure. -/
def initConfCenterGate (confCenter : Option ConfCenterConfig) (appId : String) :
    Except TardisErr Bool :=
  match confCenter with
  | none => .ok false
  | some _ =>
    if appId = "" then
      .error ⟨.formatError,
        "[Tardis.Config] The [fw.app.id] must be set when the config center is enabled", ""⟩
    else .ok true

/-- State of the reload watcher: the fingerprint observed last and the
currently published resolved workspace tree. -/
structure WatcherState where
  lastFp : String
  current : Table

/-- Modelled from the spec: one tick of the ReloadWatcher.  The
periodic body spawned in config_processor.rs lines 121 to 133 is left
inert in the source and the fingerprint-driven reload lives in
config_nacos.rs, which is not under src/.  Per the spec, a tick whose
fingerprint equals the last observed one does nothing; a changed
fingerprint triggers one end-to-end re-resolution, and only a
successful re-resolution replaces the published configuration. -/
def watcherTick (resolve : String → Option Table) (st : WatcherState) (fp : String) :
    WatcherState × Bool :=
  if fp = st.lastFp then (st, false)
  else
    match resolve fp with
    | some cfg => (⟨fp, cfg⟩, true)
    | none => (st, true)

/-- Run the watcher over a sequence of observed fingerprints, counting
re-resolutions. -/
def watcherRun (resolve : String → Option Table) (st : WatcherState) :
    List String → WatcherState × Nat
  | [] => (st, 0)
  | fp :: fps =>
    let step := watcherTick resolve st fp
    let rest := watcherRun resolve step.1 fps
    (rest.1, (if step.2 then 1 else 0) + rest.2)

theorem buildMergedAux_local_independent (srcs : List ConfigSource)
    (e1 e2 : FetchEnv) (hr : e1.remote = e2.remote) (he : e1.envVars = e2.envVars)
    (hloc : ∀ s ∈ srcs, ∀ path req, s ≠ ConfigSource.localFile path req)
    (acc : Table) :
    buildMergedAux e1 acc srcs = buildMergedAux e2 acc srcs := by
  induction srcs generalizing acc with
  | nil => rfl
  | cons s rest ih =>
      have hcs : collectSource e1 s = collectSource e2 s := by
        cases s with
        | localFile pth req => exact absurd rfl (hloc _ (by simp) pth req)
        | remoteDoc u => simp [collectSource, hr]
        | envTardis => simp [collectSource, he]
      simp only [buildMergedAux, hcs]
      cases collectSource e2 s with
      | ok t => exact ih (fun s2 hs2 => hloc s2 (by simp [hs2])) _
      | error e => rfl

/-- C4: merging is leaf-level override with key-by-key union of nested
maps: for A with x and y followed by B redefining x the merge keeps y
and takes the new x; for nested db tables the overriding url leaves
the sibling pool in place; and in general a key the later source does
not define keeps its value from the earlier source. -/
theorem c4_merge_leaf_override_nested_union :
    (mergeTab [("x", CVal.i 1), ("y", CVal.i 1)] [("x", CVal.i 2)] =
      [("x", CVal.i 2), ("y", CVal.i 1)])
    ∧ (mergeTab [("db", CVal.table [("url", CVal.s "a"), ("pool", CVal.i 5)])]
        [("db", CVal.table [("url", CVal.s "b")])] =
        [("db", CVal.table [("url", CVal.s "b"), ("pool", CVal.i 5)])])
    ∧ (∀ ta tb k, lookupKey tb k = none →
        lookupKey (mergeTab ta tb) k = lookupKey ta k) := by
  refine ⟨?_, ?_, fun ta tb k h => lookupKey_mergeTab_absent tb ta k h⟩
  · simp [mergeTab, insertMerged, mergeVal]
  · simp [mergeTab, insertMerged, mergeVal]

theorem c4_witness :
    lookupKey (mergeTab [("y", CVal.i 1)] []) "y" = lookupKey [("y", CVal.i 1)] "y" :=
  c4_merge_leaf_override_nested_union.2.2 [("y", CVal.i 1)] [] "y" rfl

/-- C1: one resolution pass layers its sources in the fixed
lowest-to-highest order local-default file, local-profile file,
remote-default document, remote-profile document, environment
variables in the TARDIS namespace; on any key defined as a leaf by
several sources the latest defining source in that order wins, with
the environment winning over everything. -/
theorem c1_precedence_order (p profile appId : String) (cc : ConfCenterConfig)
    (hprof : profile ≠ "") (tLD tLP tRD tRP tEnv : Table) (k : String) :
    doInitSources (some p) profile (some (cc, appId)) =
      [ConfigSource.localFile (p ++ "/conf-default") true,
       ConfigSource.localFile (p ++ "/conf-" ++ profile) true,
       ConfigSource.remoteDoc (appId ++ "-default"),
       ConfigSource.remoteDoc (appId ++ "-" ++ profile),
       ConfigSource.envTardis]
    ∧ (∀ v, nodupKeys tEnv → lookupKey tEnv k = some v → v.isLeaf = true →
        lookupKey (resolveTrees [tLD, tLP, tRD, tRP, tEnv]) k = some v)
    ∧ (∀ v, nodupKeys tRP → lookupKey tEnv k = none →
        lookupKey tRP k = some v → v.isLeaf = true →
        lookupKey (resolveTrees [tLD, tLP, tRD, tRP, tEnv]) k = some v)
    ∧ (∀ v, nodupKeys tRD → lookupKey tEnv k = none → lookupKey tRP k = none →
        lookupKey tRD k = some v → v.isLeaf = true →
        lookupKey (resolveTrees [tLD, tLP, tRD, tRP, tEnv]) k = some v)
    ∧ (∀ v, nodupKeys tLP → lookupKey tEnv k = none → lookupKey tRP k = none →
        lookupKey tRD k = none → lookupKey tLP k = some v → v.isLeaf = true →
        lookupKey (resolveTrees [tLD, tLP, tRD, tRP, tEnv]) k = some v)
    ∧ (∀ v, nodupKeys tLD → lookupKey tEnv k = none → lookupKey tRP k = none →
        lookupKey tRD k = none → lookupKey tLP k = none →
        lookupKey tLD k = some v → v.isLeaf = true →
        lookupKey (resolveTrees [tLD, tLP, tRD, tRP, tEnv]) k = some v) := by
  refine ⟨?_, ?_, ?_, ?_, ?_, ?_⟩
  · simp [doInitSources, localSources, fetchConfUrls, hprof]
  · intro v hnd hl hleaf
    simp only [resolveTrees, List.foldl]
    exact lookupKey_mergeTab_leaf _ _ _ _ hnd hl hleaf
  · intro v hnd h5 hl hleaf
    simp only [resolveTrees, List.foldl]
    rw [lookupKey_mergeTab_absent _ _ _ h5]
    exact lookupKey_mergeTab_leaf _ _ _ _ hnd hl hleaf
  · intro v hnd h5 h4 hl hleaf
    simp only [resolveTrees, List.foldl]
    rw [lookupKey_mergeTab_absent _ _ _ h5, lookupKey_mergeTab_absent _ _ _ h4]
    exact lookupKey_mergeTab_leaf _ _ _ _ hnd hl hleaf
  · intro v hnd h5 h4 h3 hl hleaf
    simp only [resolveTrees, List.foldl]
    rw [lookupKey_mergeTab_absent _ _ _ h5, lookupKey_mergeTab_absent _ _ _ h4,
      lookupKey_mergeTab_absent _ _ _ h3]
    exact lookupKey_mergeTab_leaf _ _ _ _ hnd hl hleaf
  · intro v hnd h5 h4 h3 h2 hl hleaf
    simp only [resolveTrees, List.foldl]
    rw [lookupKey_mergeTab_absent _ _ _ h5, lookupKey_mergeTab_absent _ _ _ h4,
      lookupKey_mergeTab_absent _ _ _ h3, lookupKey_mergeTab_absent _ _ _ h2]
    exact lookupKey_mergeTab_leaf _ _ _ _ hnd hl hleaf

theorem c1_witness :
    lookupKey (resolveTrees [[], [], [], [], [("k", CVal.s "env")]]) "k" =
      some (CVal.s "env") :=
  (c1_precedence_order "cfg" "prod" "app" ⟨"nacos", "http-u", none⟩ (by decide)
    [] [] [] [] [("k", CVal.s "env")] "k").2.1 (CVal.s "env") (by decide) rfl rfl

/-- C9: with no relative path, do_init adds no local file source at
all: the source list contains no local file entry, and the outcome of
building and merging the sources is independent of the local file
system, so a missing local default file can never fail the pass. -/
theorem c9_no_relative_path_no_local_source (profile : String)
    (confCenter : Option (ConfCenterConfig × String)) :
    (∀ s ∈ doInitSources none profile confCenter, ∀ path req,
        s ≠ ConfigSource.localFile path req)
    ∧ (∀ e1 e2 : FetchEnv, e1.remote = e2.remote → e1.envVars = e2.envVars →
        buildMerged e1 (doInitSources none profile confCenter) =
          buildMerged e2 (doInitSources none profile confCenter)) := by
  have hloc : ∀ s ∈ doInitSources none profile confCenter, ∀ path req,
      s ≠ ConfigSource.localFile path req := by
    intro s hs path req
    simp only [doInitSources, localSources, List.nil_append] at hs
    rcases List.mem_append.mp hs with hs1 | hs1
    · cases confCenter with
      | none => simp at hs1
      | some cca =>
          obtain ⟨u, _, rfl⟩ := List.mem_map.mp hs1
          simp
    · simp only [List.mem_singleton] at hs1
      subst hs1
      simp
  exact ⟨hloc, fun e1 e2 hr he =>
    buildMergedAux_local_independent _ e1 e2 hr he hloc []⟩

theorem c9_witness :
    buildMerged ⟨fun _ => none, fun _ => Except.ok [], []⟩ (doInitSources none "" none) =
      buildMerged ⟨fun _ => some [], fun _ => Except.ok [], []⟩
        (doInitSources none "" none) :=
  (c9_no_relative_path_no_local_source "" none).2 _ _ rfl rfl

/-- C8: a merged configuration without a top-level fw branch resolves
to the all-defaults typed framework configuration; the absence is
never an error. -/
theorem c8_missing_fw_yields_defaults
    (parseFw : CVal → Except ConfigErr FrameworkConfig) (merged : Table)
    (h : lookupKey merged "fw" = none) :
    frameworkFromMerged parseFw merged = Except.ok FrameworkConfig.defaults := by
  simp [frameworkFromMerged, h]

theorem c8_witness :
    frameworkFromMerged (fun _ => Except.error (ConfigErr.typeMismatch "x")) [] =
      Except.ok FrameworkConfig.defaults :=
  c8_missing_fw_yields_defaults _ [] rfl

theorem lookupKey_setEntry_self (t : Table) (k : String) (v : CVal) :
    lookupKey (setEntry t k v) k = some v := by
  induction t with
  | nil => simp [setEntry, lookupKey]
  | cons hd tl ih =>
      obtain ⟨k0, v0⟩ := hd
      by_cases hk : k0 = k
      · subst hk; simp [setEntry, lookupKey]
      · simp [setEntry, lookupKey, hk, ih]

theorem lookupKey_setEntry_other (t : Table) (k k' : String) (v : CVal)
    (h : k' ≠ k) : lookupKey (setEntry t k v) k' = lookupKey t k' := by
  induction t with
  | nil => simp [setEntry, lookupKey, Ne.symm h]
  | cons hd tl ih =>
      obtain ⟨k0, v0⟩ := hd
      by_cases hk : k0 = k
      · subst hk
        simp [setEntry, lookupKey, Ne.symm h]
      · simp [setEntry, lookupKey, hk, ih]

theorem lookupKey_wsExtend_absent (m ws : Table) (k : String)
    (h : lookupKey m k = none) : lookupKey (wsExtend ws m) k = lookupKey ws k := by
  induction m generalizing ws with
  | nil => rfl
  | cons hd tl ih =>
      obtain ⟨k0, v0⟩ := hd
      simp only [lookupKey] at h
      by_cases hk : k0 = k
      · simp [hk] at h
      · simp only [hk, if_false] at h
        simp only [wsExtend, List.foldl]
        rw [show (tl.foldl (fun acc kv => setEntry acc kv.1 kv.2) (setEntry ws k0 v0)) =
          wsExtend (setEntry ws k0 v0) tl from rfl]
        rw [ih _ h, lookupKey_setEntry_other _ _ _ _ (fun hh => hk hh.symm)]

theorem lookupKey_wsExtend_of_mem (m ws : Table) (k : String) (v : CVal)
    (hnd : nodupKeys m) (h : lookupKey m k = some v) :
    lookupKey (wsExtend ws m) k = some v := by
  induction m generalizing ws with
  | nil => simp [lookupKey] at h
  | cons hd tl ih =>
      obtain ⟨k0, v0⟩ := hd
      unfold nodupKeys at hnd
      simp only [List.map_cons, List.nodup_cons] at hnd
      by_cases hk : k0 = k
      · subst hk
        rw [lookupKey, if_pos rfl] at h
        obtain rfl : v0 = v := by injection h
        simp only [wsExtend, List.foldl]
        rw [show (tl.foldl (fun acc kv => setEntry acc kv.1 kv.2) (setEntry ws k0 v0)) =
          wsExtend (setEntry ws k0 v0) tl from rfl]
        have htl : lookupKey tl k0 = none := lookupKey_eq_none_of_not_mem _ _ hnd.1
        rw [lookupKey_wsExtend_absent _ _ _ htl, lookupKey_setEntry_self]
      · rw [lookupKey, if_neg hk] at h
        simp only [wsExtend, List.foldl]
        rw [show (tl.foldl (fun acc kv => setEntry acc kv.1 kv.2) (setEntry ws k0 v0)) =
          wsExtend (setEntry ws k0 v0) tl from rfl]
        exact ih _ hnd.2 h

/-- C10: the csm entries are inserted into the workspace map after the
cs-derived default entry under the empty key, with insert-overwrite
semantics: a csm module keyed by the empty string replaces the
cs-derived default module, and when csm has no such module the
cs-derived entry survives. -/
theorem c10_csm_overrides_default_module (merged m : Table)
    (hm : lookupKey merged "csm" = some (CVal.table m)) (hnd : nodupKeys m) :
    (∀ v, lookupKey m "" = some v →
      ∃ ws, workspaceFromMerged merged = Except.ok ws ∧ lookupKey ws "" = some v)
    ∧ (∀ c, lookupKey merged "cs" = some c → lookupKey m "" = none →
      ∃ ws, workspaceFromMerged merged = Except.ok ws ∧ lookupKey ws "" = some c) := by
  constructor
  · intro v hv
    cases hcs : lookupKey merged "cs" with
    | none =>
        refine ⟨wsExtend [] m, ?_, ?_⟩
        · simp [workspaceFromMerged, hm, hcs]
        · exact lookupKey_wsExtend_of_mem _ _ _ _ hnd hv
    | some c =>
        refine ⟨wsExtend (setEntry [] "" c) m, ?_, ?_⟩
        · simp [workspaceFromMerged, hm, hcs]
        · exact lookupKey_wsExtend_of_mem _ _ _ _ hnd hv
  · intro c hcs hnone
    refine ⟨wsExtend (setEntry [] "" c) m, ?_, ?_⟩
    · simp [workspaceFromMerged, hm, hcs]
    · rw [lookupKey_wsExtend_absent _ _ _ hnone, lookupKey_setEntry_self]

theorem c10_witness :
    ∃ ws, workspaceFromMerged
        [("cs", CVal.s "c0"), ("csm", CVal.table [("", CVal.s "mod")])] =
      Except.ok ws ∧ lookupKey ws "" = some (CVal.s "mod") :=
  (c10_csm_overrides_default_module
    [("cs", CVal.s "c0"), ("csm", CVal.table [("", CVal.s "mod")])]
    [("", CVal.s "mod")] rfl (by decide)).1 (CVal.s "mod") rfl

/-- C5 counterexample: both precondition failures are raised with
format_error (kind formatError, the 406 class), not with a
BadRequest-class error: the empty application id with an enabled
configuration center, and the 15-character salt. -/
theorem c5_counterexample :
    initConfCenterGate (some ⟨"nacos", "u", none⟩) "" =
      Except.error ⟨TardisErrKind.formatError,
        "[Tardis.Config] The [fw.app.id] must be set when the config center is enabled", ""⟩
    ∧ TardisErrKind.formatError ≠ TardisErrKind.badRequest
    ∧ decryption (fun d _ => some d) "x" "123456789012345" =
        DecOutcome.err ⟨TardisErrKind.formatError,
          "[Tardis.Config] [salt] Length must be 16", ""⟩ := by
  refine ⟨rfl, by decide, ?_⟩
  unfold decryption
  rw [if_pos (by decide)]

/-- C5 amended: enabling the configuration center with an empty
application id fails before any network call, and a salt whose length
is not 16 fails before any token is processed (the result does not
depend on the text or the cipher), but both failures carry the
FormatError class (format_error, code 406), not the BadRequest
class. -/
theorem c5_preconditions_fail_with_format_error (cc : ConfCenterConfig)
    (dec dec2 : String → String → Option String) (text text2 salt : String)
    (hsalt : salt.length ≠ 16) :
    initConfCenterGate (some cc) "" =
      Except.error ⟨TardisErrKind.formatError,
        "[Tardis.Config] The [fw.app.id] must be set when the config center is enabled", ""⟩
    ∧ decryption dec text salt =
        DecOutcome.err ⟨TardisErrKind.formatError,
          "[Tardis.Config] [salt] Length must be 16", ""⟩
    ∧ decryption dec text salt = decryption dec2 text2 salt := by
  refine ⟨rfl, ?_, ?_⟩ <;> simp [decryption, hsalt]

theorem c5_witness :
    decryption (fun d _ => some d) "a" "short" =
      decryption (fun _ _ => none) "b" "short" :=
  (c5_preconditions_fail_with_format_error ⟨"nacos", "u", none⟩ _ _ "a" "b" "short"
    (by decide)).2.2

/-- C7 counterexample: a non-2xx status other than 404 (here 500) is
mapped through the From impl to a wrapped error with the default
minus-one code class (kind custom), not to an IOError-class error. -/
theorem c7_counterexample :
    httpCollect (fun _ => Except.ok []) "u" (HttpResp.status 500 "") =
      Except.error (ConfigErr.message
        ("[Tardis.Config] Fetch remote file: " ++ "u" ++ " error " ++ toString 500))
    ∧ (configErrToTardis (ConfigErr.message
        ("[Tardis.Config] Fetch remote file: " ++ "u" ++ " error " ++ toString 500))).kind =
        TardisErrKind.custom
    ∧ TardisErrKind.custom ≠ TardisErrKind.ioError :=
  ⟨rfl, rfl, by decide⟩

/-- C7 amended: a 404 response contributes the empty tree and is never
an error; a transport failure or any status other than 200 and 404
propagates as an error which the From impl wraps with the default
minus-one code class (kind custom), not as an IOError-class error. -/
theorem c7_remote_fetch_error_mapping (parse : String → Except String Table)
    (url body m : String) (c : Nat) (h404 : c ≠ 404) (h200 : c ≠ 200) :
    httpCollect parse url (HttpResp.status 404 body) = Except.ok []
    ∧ httpCollect parse url (HttpResp.transportFailure m) =
        Except.error (ConfigErr.foreign m)
    ∧ (configErrToTardis (ConfigErr.foreign m)).kind = TardisErrKind.custom
    ∧ httpCollect parse url (HttpResp.status c body) =
        Except.error (ConfigErr.message
          ("[Tardis.Config] Fetch remote file: " ++ url ++ " error " ++ toString c))
    ∧ (configErrToTardis (ConfigErr.message
        ("[Tardis.Config] Fetch remote file: " ++ url ++ " error " ++ toString c))).kind =
        TardisErrKind.custom := by
  refine ⟨rfl, rfl, rfl, ?_, rfl⟩
  simp [httpCollect, h404, h200]

theorem c7_witness :
    httpCollect (fun _ => Except.ok []) "v" (HttpResp.status 503 "") =
      Except.error (ConfigErr.message
        ("[Tardis.Config] Fetch remote file: " ++ "v" ++ " error " ++ toString 503)) :=
  (c7_remote_fetch_error_mapping (fun _ => Except.ok []) "v" "" "m" 503
    (by decide) (by decide)).2.2.2.1

/-- C3: with a sixteen-character salt the decryption pass returns a
text containing no token unchanged, and replaces a token ENC over a
base64-alphabet payload with the plaintext the cipher returns for
that payload, keeping the text before the token verbatim and
continuing the same scan on the remainder after the token. -/
theorem c3_decryption_replaces_tokens (dec : String → String → Option String)
    (salt : String) (hsalt : salt.length = 16) (text cs p rest : List Char) (q : String)
    (hnotok : containsTok text = false) (hcs : containsTok cs = false)
    (hp : ∀ c ∈ p, isB64 c = true) (hq : dec (String.mk p) salt = some q) :
    decryption dec (String.mk text) salt = DecOutcome.ok (String.mk text)
    ∧ (∀ out, scanDecrypt (fun d => dec d salt) rest = some out →
        decryption dec
          (String.mk (cs ++ 'E' :: 'N' :: 'C' :: '(' :: (p ++ ')' :: rest))) salt =
          DecOutcome.ok (String.mk (cs ++ (q.data ++ out)))) := by
  have hs16 : ¬salt.length ≠ 16 := by simp [hsalt]
  constructor
  · unfold decryption
    rw [if_neg hs16]
    rw [show (String.mk text).data = text from rfl]
    rw [scan_no_token _ _ hnotok]
  · intro out hout
    unfold decryption
    rw [if_neg hs16]
    rw [show (String.mk (cs ++ 'E' :: 'N' :: 'C' :: '(' :: (p ++ ')' :: rest))).data =
      (cs ++ 'E' :: 'N' :: 'C' :: '(' :: (p ++ ')' :: rest)) from rfl]
    rw [scan_splice _ cs p rest q hcs hp hq, hout]
    rfl

theorem c3_witness :
    decryption (fun _ _ => some "S")
      (String.mk ([] ++ 'E' :: 'N' :: 'C' :: '(' :: (['A', 'B'] ++ ')' :: [])))
      "0123456789abcdef" =
      DecOutcome.ok (String.mk ([] ++ ("S".data ++ []))) :=
  (c3_decryption_replaces_tokens (fun _ _ => some "S") "0123456789abcdef" (by decide)
    ['a'] [] ['A', 'B'] [] "S" (by decide) rfl (by decide) rfl).2 [] (scan_nil _)

/-- C6 counterexample: the pass returns no typed error for a
malformed or failing token: the fragment ENC of a equals sign and
bracket does not match the pattern and is passed through verbatim
inside an ok result, and a matching token whose payload the cipher
rejects ends in the expect panic, an ambient fault. -/
theorem c6_counterexample :
    decryption (fun d _ => some d) "ENC(a=)" "0123456789abcdef" =
      DecOutcome.ok "ENC(a=)"
    ∧ decryption (fun _ _ => none) "ENC(a)" "0123456789abcdef" =
        DecOutcome.panicked "[Tardis.Config] Decryption error" := by
  constructor
  · unfold decryption
    rw [if_neg (by decide)]
    rw [scan_no_token _ _ (by decide)]
  · unfold decryption
    rw [if_neg (by decide)]
    have hdata : ("ENC(a)" : String).data =
        [] ++ 'E' :: 'N' :: 'C' :: '(' :: (['a'] ++ ')' :: []) := by decide
    rw [hdata, scan_splice_fail _ [] ['a'] [] rfl (by decide) rfl]

/-- C6 amended: with a sixteen-character salt, a matched token whose
payload the cipher rejects makes the whole pass end in the expect
panic (an ambient fault) instead of returning a typed error, while a
text containing no matching token, malformed fragments included, is
returned unchanged inside an ok result rather than being rejected. -/
theorem c6_failing_token_panics (dec : String → String → Option String)
    (salt : String) (hsalt : salt.length = 16) (cs p rest : List Char)
    (hcs : containsTok cs = false) (hp : ∀ c ∈ p, isB64 c = true)
    (hfail : dec (String.mk p) salt = none) :
    decryption dec
        (String.mk (cs ++ 'E' :: 'N' :: 'C' :: '(' :: (p ++ ')' :: rest))) salt =
      DecOutcome.panicked "[Tardis.Config] Decryption error"
    ∧ (∀ text, containsTok text = false →
        decryption dec (String.mk text) salt = DecOutcome.ok (String.mk text)) := by
  have hs16 : ¬salt.length ≠ 16 := by simp [hsalt]
  constructor
  · unfold decryption
    rw [if_neg hs16]
    rw [show (String.mk (cs ++ 'E' :: 'N' :: 'C' :: '(' :: (p ++ ')' :: rest))).data =
      (cs ++ 'E' :: 'N' :: 'C' :: '(' :: (p ++ ')' :: rest)) from rfl]
    rw [scan_splice_fail _ cs p rest hcs hp hfail]
  · intro text hno
    unfold decryption
    rw [if_neg hs16]
    rw [show (String.mk text).data = text from rfl]
    rw [scan_no_token _ _ hno]

theorem c6_witness :
    decryption (fun _ _ => none)
      (String.mk ([] ++ 'E' :: 'N' :: 'C' :: '(' :: (['A'] ++ ')' :: [])))
      "0123456789abcdef" =
      DecOutcome.panicked "[Tardis.Config] Decryption error" :=
  (c6_failing_token_panics (fun _ _ => none) "0123456789abcdef" (by decide) [] ['A'] []
    rfl (by decide) rfl).1

/-- C2: over the fingerprint sequence h1 h1 h2 starting from observed
h1, watcher ticks with an unchanged fingerprint trigger no
re-resolution, the tick with the changed fingerprint performs the
single re-resolution of the run, and the published configuration is
replaced exactly when that re-resolution succeeds and kept unchanged
otherwise. -/
theorem c2_watcher_single_reresolution (h1 h2 : String) (c0 c2 : Table)
    (resolve : String → Option Table) (hne : h2 ≠ h1) :
    (∀ st : WatcherState, watcherTick resolve st st.lastFp = (st, false))
    ∧ (resolve h2 = some c2 →
        watcherRun resolve ⟨h1, c0⟩ [h1, h1, h2] = (⟨h2, c2⟩, 1))
    ∧ (resolve h2 = none →
        watcherRun resolve ⟨h1, c0⟩ [h1, h1, h2] = (⟨h1, c0⟩, 1)) := by
  refine ⟨fun st => by simp [watcherTick], ?_, ?_⟩
  · intro hres
    simp [watcherRun, watcherTick, hne, hres]
  · intro hres
    simp [watcherRun, watcherTick, hne, hres]

theorem c2_witness :
    watcherRun (fun _ => some [("a", CVal.i 1)]) ⟨"h1", []⟩ ["h1", "h1", "h2"] =
      (⟨"h2", [("a", CVal.i 1)]⟩, 1) :=
  (c2_watcher_single_reresolution "h1" "h2" [] [("a", CVal.i 1)]
    (fun _ => some [("a", CVal.i 1)]) (by decide)).2.1 rfl
